import Mathlib

/-!
Verification of the seer2arff fixed-width field extraction pipeline
(`src/seer2arff.py`).

A SEER row is modelled as a `List Char`; Python string slicing
`s[a:b]` (which silently truncates at the end of the string and never
raises) is `pySlice`.  Each Python function or method of the source is
embedded as a Lean definition of the same name where possible; fallible
code (Python `int(...)`, which raises `ValueError` on non-numeric text)
returns `Option`.
-/

namespace Seer2Arff

/-- A SEER row: one fixed-width text record, addressed by byte offset. -/
abbrev Row := List Char

/-- Python slice `s[a:b]` for `0 ≤ a ≤ b`: take the characters at
positions `[a, b)`, silently truncated to the actual length of `s`. -/
def pySlice (s : Row) (a b : Nat) : Row :=
  (s.drop a).take (b - a)

/-- `nines_to_question_mark` (source lines 18-32): the regex
`re.search('^9+$', value)` matches exactly when `value` is nonempty and
every character is `'9'`; in that case the ARFF missing sentinel `?` is
returned, otherwise the value unchanged. -/
def nines_to_question_mark (value : Row) : Row :=
  if value ≠ [] ∧ value.all (fun c => c = '9') then ['?'] else value

/-- The inner step of the `format_blank` decorator (source lines 34-57):
after the wrapped function returns, a value containing any space
character is replaced by the sentinel `?`. -/
def remove_blank (value : Row) : Row :=
  if ' ' ∈ value then ['?'] else value

/-- `SeerAttribute` data (source lines 60-96): `start` is stored
0-based (the constructor subtracts 1 from the 1-based SEER data
dictionary position), `length` is the field width; `name` and
`datatype` feed the ARFF attribute declaration. -/
structure SeerAttribute where
  start : Nat
  length : Nat
  name : Row
  datatype : Row
deriving DecidableEq

/-- The `SeerAttribute.__init__` constructor: `self.start = start - 1`. -/
def SeerAttribute.make (start length : Nat) (name datatype : Row) : SeerAttribute :=
  ⟨start - 1, length, name, datatype⟩

/-- The `end` property (source line 96): `self.start + self.length`. -/
def SeerAttribute.stop (a : SeerAttribute) : Nat :=
  a.start + a.length

/-- `SeerAttribute._get_from_seer` (source line 125):
`seer_string[self.start:self.end]`. -/
def SeerAttribute.get_from_seer (a : SeerAttribute) (s : Row) : Row :=
  pySlice s a.start a.stop

/-- `SeerAttribute.get_meta_string` (source line 135):
`"@attribute %s %s" % (self.name, self.datatype)`.
`SeerNominalAttribute.get_meta_string` is textually identical. -/
def SeerAttribute.get_meta_string (a : SeerAttribute) : Row :=
  "@attribute ".data ++ a.name ++ " ".data ++ a.datatype

/-- `SeerAttribute.get_attribute` (source lines 137-150), including its
`@format_blank` wrapper: slice the field, collapse all-nines to `?`,
then collapse any space-containing value to `?`. -/
def SeerAttribute.get_attribute (a : SeerAttribute) (s : Row) : Row :=
  remove_blank (nines_to_question_mark (a.get_from_seer s))

/-- `SeerAttribute.is_match` (source lines 152-168): equality of the
raw (un-normalized) slice against `match`. -/
def SeerAttribute.is_match (a : SeerAttribute) (s m : Row) : Bool :=
  a.get_from_seer s == m

/-- Characterization of the generic extractor, shared by the theorems
below: the result is `?` exactly when the raw slice is nonempty
all-nines or contains a space, and the raw slice otherwise. -/
lemma get_attribute_eq (a : SeerAttribute) (s : Row) :
    a.get_attribute s =
      if (a.get_from_seer s ≠ [] ∧ (a.get_from_seer s).all (fun c => c = '9'))
          ∨ ' ' ∈ a.get_from_seer s
      then ['?'] else a.get_from_seer s := by
  unfold SeerAttribute.get_attribute nines_to_question_mark remove_blank
  by_cases h9 : a.get_from_seer s ≠ [] ∧ (a.get_from_seer s).all (fun c => c = '9')
  · rw [if_pos h9, if_pos (Or.inl h9), if_neg (by decide : ¬ (' ' ∈ ['?']))]
  · rw [if_neg h9]
    by_cases hsp : ' ' ∈ a.get_from_seer s
    · rw [if_pos hsp, if_pos (Or.inr hsp)]
    · rw [if_neg hsp, if_neg (by tauto : ¬ _)]

/-- C1 — for every row and field descriptor, the generic extractor
`get_attribute` returns the sentinel `?` when the raw slice at
`[start-1, start-1+length)` is composed entirely of the digit 9 (any
length ≥ 1) or contains a space, and otherwise returns the raw slice
unchanged. -/
theorem get_attribute_missing_sentinel (a : SeerAttribute) (s : Row) :
    a.get_attribute s =
      if (a.get_from_seer s ≠ [] ∧ (a.get_from_seer s).all (fun c => c = '9'))
          ∨ ' ' ∈ a.get_from_seer s
      then ['?'] else a.get_from_seer s :=
  get_attribute_eq a s

/-- C10 — every value produced by the generic extractor is either the
sentinel `?` or a space-free, not-all-nines string, so running the
normalization (nines-to-sentinel then blank-to-sentinel) a second time
changes nothing. -/
theorem get_attribute_normalization_idempotent (a : SeerAttribute) (s : Row) :
    (a.get_attribute s = ['?'] ∨
      (' ' ∉ a.get_attribute s ∧
        ¬(a.get_attribute s ≠ [] ∧ (a.get_attribute s).all (fun c => c = '9')))) ∧
    remove_blank (nines_to_question_mark (a.get_attribute s)) = a.get_attribute s := by
  rw [get_attribute_eq]
  by_cases h : (a.get_from_seer s ≠ [] ∧ (a.get_from_seer s).all (fun c => c = '9'))
      ∨ ' ' ∈ a.get_from_seer s
  · rw [if_pos h]
    exact ⟨Or.inl rfl, by decide⟩
  · rw [if_neg h]
    rw [not_or] at h
    obtain ⟨h9, hsp⟩ := h
    refine ⟨Or.inr ⟨hsp, h9⟩, ?_⟩
    unfold nines_to_question_mark remove_blank
    rw [if_neg h9, if_neg hsp]

/-- C9 — slicing is total for rows of any length: the slice is
truncated to what the row actually holds, and on a row ending at or
before the field's start both the slice and the extracted value are the
empty string (not the sentinel `?`). -/
theorem get_from_seer_total_truncation (a : SeerAttribute) (s : Row) :
    (a.get_from_seer s).length = min a.length (s.length - a.start) ∧
    (s.length ≤ a.start → a.get_from_seer s = [] ∧ a.get_attribute s = []) := by
  constructor
  · unfold SeerAttribute.get_from_seer pySlice SeerAttribute.stop
    rw [Nat.add_sub_cancel_left, List.length_take, List.length_drop]
  · intro h
    have hnil : a.get_from_seer s = [] := by
      unfold SeerAttribute.get_from_seer pySlice
      rw [List.drop_eq_nil_of_le h, List.take_nil]
    refine ⟨hnil, ?_⟩
    rw [get_attribute_eq, hnil]
    simp

/-- A demonstration field whose span `[4, 7)` lies wholly beyond the
two-character demonstration row; used to exercise the short-row
behavior of the extractor. -/
def shortDemoAttr : SeerAttribute :=
  SeerAttribute.make 5 3 "demo".data "numeric".data

/-- A row shorter than `shortDemoAttr`'s declared span. -/
def shortDemoRow : Row := "ab".data

/-- Witness for C9 at a concrete short row. -/
theorem get_from_seer_total_truncation_witness :
    shortDemoAttr.get_from_seer shortDemoRow = [] ∧
    shortDemoAttr.get_attribute shortDemoRow = [] :=
  (get_from_seer_total_truncation shortDemoAttr shortDemoRow).2 (by decide)

/-- C8 counterexample — on the two-character row `"ab"`, shorter than
the demonstration field's span `[4, 7)`, the extractor does not fail
with any out-of-range condition: it returns exactly the silently
truncated slice (here empty), and the extracted value is the empty
string, so the claimed `OutOfRange` failure does not occur. -/
theorem short_row_no_failure_cex :
    shortDemoRow.length < shortDemoAttr.start + shortDemoAttr.length ∧
    shortDemoAttr.get_from_seer shortDemoRow = shortDemoRow.drop shortDemoAttr.start ∧
    shortDemoAttr.get_attribute shortDemoRow = [] ∧
    shortDemoAttr.get_attribute shortDemoRow ≠ ['?'] := by decide

/-- C8 (amended) — on a row shorter than `start-1+length` the extractor
does not fail: it silently truncates, returning exactly the characters
of the row from position `start-1` on. -/
theorem short_row_truncates (a : SeerAttribute) (s : Row)
    (h : s.length < a.start + a.length) :
    a.get_from_seer s = s.drop a.start := by
  unfold SeerAttribute.get_from_seer pySlice SeerAttribute.stop
  rw [Nat.add_sub_cancel_left]
  apply List.take_of_length_le
  rw [List.length_drop]
  omega

/-- Witness for the amended C8 at a concrete short row. -/
theorem short_row_truncates_witness :
    shortDemoAttr.get_from_seer shortDemoRow = shortDemoRow.drop shortDemoAttr.start :=
  short_row_truncates shortDemoAttr shortDemoRow (by decide)

/-- `DEFAULT_STR` (source line 15): the module-level survival-time
recode threshold, in months. The source sets it to 24. -/
def DEFAULT_STR : Int := 24

/-- The startup configuration of the threshold (source lines 480-487):
`optparse` stores `opts.time`, defaulting to `DEFAULT_STR` when the
`-t`/`--time` option is absent, and `DEFAULT_STR` is then rebound to
`opts.time` before the scan runs. -/
def effective_threshold (override : Option Int) : Int :=
  match override with
  | some t => t
  | none => DEFAULT_STR

/-- A nonempty run of decimal digits, as accepted by Python `int`,
folded to its value; anything else is a `ValueError` (`none`). -/
def parseDigits (cs : List Char) : Option Nat :=
  if cs ≠ [] ∧ cs.all (fun c => c.isDigit) then
    some (cs.foldl (fun a c => a * 10 + (c.toNat - 48)) 0)
  else
    none

/-- Python `int(...)` on a string, as used at the call sites of this
program (an optional sign followed by decimal digits; `int` also strips
surrounding whitespace and accepts underscores, which never reach these
call sites): `none` models the `ValueError` raised on anything else,
such as the sentinel `?`. -/
def pyInt (s : List Char) : Option Int :=
  match s with
  | [] => none
  | c :: rest =>
    if c = '-' then (parseDigits rest).map (fun n => -(n : Int))
    else if c = '+' then (parseDigits rest).map (fun n => (n : Int))
    else (parseDigits (c :: rest)).map (fun n => (n : Int))

/-- Python `str(...)` on an integer: the decimal rendering. -/
def intToChars (i : Int) : Row := (toString i).data

/-- Python's substring test `pat in s` on strings: does `pat` occur as
a contiguous run inside `s`? -/
def hasSubstr (pat : List Char) : List Char → Bool
  | [] => pat.isEmpty
  | c :: rest => pat.isPrefixOf (c :: rest) || hasSubstr pat rest

/-- `hasSubstr` agrees with the infix order on lists. -/
lemma hasSubstr_iff (pat s : List Char) : hasSubstr pat s = true ↔ pat <:+: s := by
  induction s with
  | nil => simp [hasSubstr, List.isEmpty_iff]
  | cons c rest ih =>
    simp only [hasSubstr, Bool.or_eq_true, ih, List.infix_cons_iff,
      List.isPrefixOf_iff_prefix]

/-- `SurvivalTimeRecode._to_months` on the already-sliced 4-character
value (source lines 220-231): if the slice contains the substring
`"9999"` or any space it is missing (`?`); otherwise the first two
characters are the years and the last two the months, converted to
`str(years * 12 + months)`. A slice whose parts do not parse as
integers raises `ValueError` (`none`). -/
def SurvivalTimeRecode.to_months_val (val : Row) : Option Row :=
  if hasSubstr "9999".data val ∨ ' ' ∈ val then some ['?']
  else
    match pyInt (val.take 2), pyInt ((val.drop 2).take 2) with
    | some years, some months => some (intToChars (years * 12 + months))
    | _, _ => none

/-- `SurvivalTimeRecode._to_months` (source lines 209-231): slice the
field out of the row, then convert. -/
def SurvivalTimeRecode.to_months (a : SeerAttribute) (s : Row) : Option Row :=
  SurvivalTimeRecode.to_months_val (a.get_from_seer s)

/-- `SurvivalTimeRecode._to_nominal` (source lines 233-241): parse the
months string with `int` (raising `ValueError`, i.e. `none`, on the
sentinel `?`) and bucket against `TIER1 = DEFAULT_STR`, the
process-wide threshold passed here explicitly as `tier1`. -/
def SurvivalTimeRecode.to_nominal (tier1 : Int) (months : Row) : Option Row :=
  match pyInt months with
  | some m => some (if m ≤ tier1 then ['1'] else ['2'])
  | none => none

/-- `SurvivalTimeRecode.get_attribute` (source lines 243-244):
`self._to_nominal(self._to_months(seer_string))`. -/
def SurvivalTimeRecode.get_attribute (tier1 : Int) (a : SeerAttribute) (s : Row) :
    Option Row :=
  (SurvivalTimeRecode.to_months a s).bind (SurvivalTimeRecode.to_nominal tier1)

/-- The `survival-time-recode` field as declared by `load_seer_types`
(source line 402): 1-based start 251, length 4, nominal categories 1,2. -/
def survivalTimeAttr : SeerAttribute :=
  SeerAttribute.make 251 4 "survival-time-recode".data "\x7b1,2\x7d".data

/-- A full-width row whose survival-time slice `[250, 254)` is the
all-nines missing marker `"9999"`. -/
def missingSurvivalRow : Row := List.replicate 250 '0' ++ "9999".data

/-- C2 — on a row whose survival-time slice is the missing marker
`"9999"`, `_to_months` does return the sentinel `?`, but
`get_attribute` then feeds that sentinel to `_to_nominal`, whose
`int(months)` raises `ValueError`: the displayed value is an error
(`none`), not the sentinel, contradicting the claim that no error is
raised on missing data. -/
theorem survival_missing_value_error :
    SurvivalTimeRecode.to_months survivalTimeAttr missingSurvivalRow = some ['?'] ∧
    SurvivalTimeRecode.get_attribute DEFAULT_STR survivalTimeAttr missingSurvivalRow
      = none := by decide

/-- C7 counterexample — the process-wide survival-time threshold does
not default to 12: `DEFAULT_STR` is 24, and so is the effective
threshold when no startup override is given. -/
theorem default_threshold_not_twelve_cex :
    DEFAULT_STR ≠ 12 ∧ effective_threshold none ≠ 12 := by decide

/-- C7 (amended) — the threshold is a single process-wide value,
overridable at startup and defaulting to 24 months. -/
theorem default_threshold_twenty_four :
    DEFAULT_STR = 24 ∧ effective_threshold none = DEFAULT_STR ∧
    ∀ t : Int, effective_threshold (some t) = t :=
  ⟨rfl, rfl, fun _ => rfl⟩

/-- `parseDigits` on a two-digit string is the two-digit value. -/
lemma parseDigits_pair (d1 d2 : Char) (h1 : d1.isDigit = true) (h2 : d2.isDigit = true) :
    parseDigits [d1, d2] = some (10 * (d1.toNat - 48) + (d2.toNat - 48)) := by
  unfold parseDigits
  rw [if_pos ⟨by simp, by simp [h1, h2]⟩]
  simp only [List.foldl_cons, List.foldl_nil]
  congr 1
  ring

/-- A digit character is not the space character. -/
lemma isDigit_ne_space {c : Char} (h : c.isDigit = true) : c ≠ ' ' := by
  intro hEq
  rw [hEq] at h
  exact absurd h (by decide)

/-- Python `int` on a two-digit string yields the two-digit value. -/
lemma pyInt_digits_pair (d1 d2 : Char) (h1 : d1.isDigit = true) (h2 : d2.isDigit = true) :
    pyInt [d1, d2] = some ((10 * (d1.toNat - 48) + (d2.toNat - 48) : Nat) : Int) := by
  have hm : d1 ≠ '-' := by
    intro hEq; rw [hEq] at h1; exact absurd h1 (by decide)
  have hp : d1 ≠ '+' := by
    intro hEq; rw [hEq] at h1; exact absurd h1 (by decide)
  simp only [pyInt]
  rw [if_neg hm, if_neg hp, parseDigits_pair d1 d2 h1 h2]
  rfl

/-- C3 — on a non-missing 4-character YYMM slice of decimal digits,
`_to_months` yields the non-negative integer `years*12 + months`
rendered in decimal (`"0400"` gives `48`, `"9999"` gives the sentinel),
and `_to_nominal` with threshold 12 buckets 12 months into class `1`
and 13 months into class `2`. -/
theorem survival_time_months_and_buckets :
    (∀ d1 d2 d3 d4 : Char, d1.isDigit = true → d2.isDigit = true →
        d3.isDigit = true → d4.isDigit = true →
        [d1, d2, d3, d4] ≠ ['9', '9', '9', '9'] →
        SurvivalTimeRecode.to_months_val [d1, d2, d3, d4] =
          some (intToChars (((10 * (d1.toNat - 48) + (d2.toNat - 48)) * 12 +
            (10 * (d3.toNat - 48) + (d4.toNat - 48)) : Nat) : Int))) ∧
    SurvivalTimeRecode.to_months_val "0400".data = some "48".data ∧
    SurvivalTimeRecode.to_months_val "9999".data = some "?".data ∧
    SurvivalTimeRecode.to_nominal 12 "12".data = some "1".data ∧
    SurvivalTimeRecode.to_nominal 12 "13".data = some "2".data ∧
    (∀ (tier m : Int) (months : Row), pyInt months = some m →
        SurvivalTimeRecode.to_nominal tier months =
          some (if m ≤ tier then ['1'] else ['2'])) := by
  refine ⟨?_, by decide, by decide, by decide, by decide, ?_⟩
  case refine_2 =>
    intro tier m months hm
    unfold SurvivalTimeRecode.to_nominal
    rw [hm]
  intro d1 d2 d3 d4 h1 h2 h3 h4 hne
  have hcond : ¬(hasSubstr "9999".data [d1, d2, d3, d4] = true ∨
      ' ' ∈ [d1, d2, d3, d4]) := by
    rintro (h | h)
    · have hinf := (hasSubstr_iff _ _).mp h
      have heq := List.IsInfix.eq_of_length hinf (by rfl)
      exact hne heq.symm
    · simp only [List.mem_cons, List.not_mem_nil, or_false] at h
      rcases h with h | h | h | h
      · exact isDigit_ne_space h1 h.symm
      · exact isDigit_ne_space h2 h.symm
      · exact isDigit_ne_space h3 h.symm
      · exact isDigit_ne_space h4 h.symm
  unfold SurvivalTimeRecode.to_months_val
  rw [if_neg hcond]
  have ht1 : [d1, d2, d3, d4].take 2 = [d1, d2] := rfl
  have ht2 : ([d1, d2, d3, d4].drop 2).take 2 = [d3, d4] := rfl
  rw [ht1, ht2, pyInt_digits_pair d1 d2 h1 h2, pyInt_digits_pair d3 d4 h3 h4]
  show some (intToChars _) = some (intToChars _)
  congr 2

/-- Witness for C3 at the concrete digit slice `"0123"` and the
concrete bucket query `13 ≤ 12`. -/
theorem survival_time_months_and_buckets_witness :
    SurvivalTimeRecode.to_months_val ['0', '1', '2', '3'] =
      some (intToChars (((10 * ('0'.toNat - 48) + ('1'.toNat - 48)) * 12 +
        (10 * ('2'.toNat - 48) + ('3'.toNat - 48)) : Nat) : Int)) ∧
    SurvivalTimeRecode.to_nominal 12 "13".data = some ['2'] :=
  ⟨survival_time_months_and_buckets.1 '0' '1' '2' '3'
      (by decide) (by decide) (by decide) (by decide) (by decide),
    (survival_time_months_and_buckets.2.2.2.2.2 12 13 "13".data
      (by decide)).trans (by decide)⟩

/-- `get_truth_combinator` (source lines 317-340): the returned
`is_all_true` closure evaluates every function of `func_list` on the
row and reduces the list of booleans with `and`, starting from `True`. -/
def get_truth_combinator (func_list : List (Row → Bool)) : Row → Bool :=
  fun seer_string =>
    (func_list.map (fun f => f seer_string)).foldl (fun x y => x && y) true

/-- Folding `and` over a boolean list from `b` is `b && all`. -/
lemma foldl_and_eq_all (l : List Bool) (b : Bool) :
    l.foldl (fun x y => x && y) b = (b && l.all (fun x => x)) := by
  induction l generalizing b with
  | nil => simp
  | cons c rest ih => simp [List.foldl_cons, ih, Bool.and_assoc]

/-- The combinator is the conjunction of its predicates on the row. -/
lemma get_truth_combinator_eq_all (fs : List (Row → Bool)) (s : Row) :
    get_truth_combinator fs s = fs.all (fun f => f s) := by
  unfold get_truth_combinator
  rw [foldl_and_eq_all, Bool.true_and]
  induction fs with
  | nil => rfl
  | cons f rest ih => simp [List.all_cons, ih]

/-- C4 — the truth combinator on the empty list accepts every row; on
any list it accepts a row exactly when every predicate does; and its
boolean result is unchanged under any reordering of the predicate
list. -/
theorem truth_combinator_is_and (fs gs : List (Row → Bool)) (s : Row) :
    get_truth_combinator [] s = true ∧
    (get_truth_combinator fs s = true ↔ ∀ f ∈ fs, f s = true) ∧
    (fs.Perm gs → get_truth_combinator fs s = get_truth_combinator gs s) := by
  have hall : ∀ hs : List (Row → Bool),
      get_truth_combinator hs s = true ↔ ∀ f ∈ hs, f s = true := by
    intro hs
    rw [get_truth_combinator_eq_all]
    exact List.all_eq_true
  refine ⟨rfl, hall fs, ?_⟩
  intro hperm
  have hiff : get_truth_combinator fs s = true ↔ get_truth_combinator gs s = true := by
    rw [hall fs, hall gs]
    exact ⟨fun h f hf => h f (hperm.mem_iff.mpr hf),
      fun h f hf => h f (hperm.mem_iff.mp hf)⟩
  cases hfs : get_truth_combinator fs s with
  | true => exact (hiff.mp hfs).symm
  | false =>
    cases hgs : get_truth_combinator gs s with
    | true => exact absurd (hiff.mpr hgs) (by rw [hfs]; decide)
    | false => rfl

/-- A predicate accepting every row, for exercising the combinator. -/
def demoPredTrue : Row → Bool := fun _ => true

/-- A predicate rejecting every row, for exercising the combinator. -/
def demoPredFalse : Row → Bool := fun _ => false

/-- Witness for C4: reordering a concrete two-predicate list does not
change the combinator's verdict on a concrete row. -/
theorem truth_combinator_is_and_witness :
    get_truth_combinator [demoPredTrue, demoPredFalse] [] =
      get_truth_combinator [demoPredFalse, demoPredTrue] [] :=
  (truth_combinator_is_and [demoPredTrue, demoPredFalse]
    [demoPredFalse, demoPredTrue] []).2.2 (List.Perm.swap _ _ _)

/-- An entry of the attribute set as consumed by the row pipeline: the
declared field together with its (possibly overridden) per-row value
computation, the dispatch-erased form of the source's class hierarchy. -/
structure ArffField where
  attr : SeerAttribute
  get_attr : Row → Row

/-- A plain `SeerAttribute`, viewed as a pipeline entry with the
generic `get_attribute` computation. -/
def SeerAttribute.toField (a : SeerAttribute) : ArffField :=
  ⟨a, a.get_attribute⟩

/-- `format_instance` (source lines 427-435): concatenate each
attribute's value followed by a comma, then drop the final character
(`output[:len(output)-1]`). -/
def format_instance (row : Row) (attributes : List ArffField) : Row :=
  let output := attributes.foldl (fun out a => out ++ a.get_attr row ++ [',']) ([] : Row)
  output.take (output.length - 1)

/-- Every value followed by a comma, in order (the loop body of
`format_instance` before the final character is dropped). -/
def commaJoinAll (vs : List Row) : Row :=
  vs.foldr (fun v acc => v ++ ',' :: acc) []

/-- Modelled from the spec's words "joining results with a single
separator character": the values interleaved with single commas, no
edge commas. Compared against `format_instance` below. -/
def commaJoin : List Row → Row
  | [] => []
  | [v] => v
  | v :: w :: rest => v ++ ',' :: commaJoin (w :: rest)

/-- The `format_instance` loop, from any partial output. -/
lemma foldl_format_loop (row : Row) (attrs : List ArffField) (init : Row) :
    attrs.foldl (fun out a => out ++ a.get_attr row ++ [',']) init =
      init ++ commaJoinAll (attrs.map (fun a => a.get_attr row)) := by
  induction attrs generalizing init with
  | nil => simp [commaJoinAll]
  | cons a rest ih =>
    rw [List.foldl_cons, ih]
    simp [commaJoinAll, List.append_assoc]

/-- On a nonempty value list the loop output is the comma-join plus a
trailing comma. -/
lemma commaJoinAll_eq_commaJoin (vs : List Row) (h : vs ≠ []) :
    commaJoinAll vs = commaJoin vs ++ [','] := by
  induction vs with
  | nil => exact absurd rfl h
  | cons v rest ih =>
    cases rest with
    | nil => rfl
    | cons w rs =>
      show v ++ ',' :: commaJoinAll (w :: rs) = (v ++ ',' :: commaJoin (w :: rs)) ++ [',']
      rw [ih (by simp)]
      simp

/-- The comma-join of a nonempty list of nonempty values is nonempty. -/
lemma commaJoin_ne_nil (vs : List Row) (hvs : vs ≠ []) (h0 : [] ∉ vs) :
    commaJoin vs ≠ [] := by
  cases vs with
  | nil => exact absurd rfl hvs
  | cons v rest =>
    cases rest with
    | nil =>
      show v ≠ []
      intro hv
      exact h0 (hv ▸ List.mem_cons_self v [])
    | cons w rs =>
      show v ++ ',' :: commaJoin (w :: rs) ≠ []
      simp

/-- The comma-join of comma-free values holds one comma per gap. -/
lemma commaJoin_count (vs : List Row) (hvs : vs ≠ [])
    (hc : ∀ v ∈ vs, ',' ∉ v) :
    (commaJoin vs).count ',' = vs.length - 1 := by
  induction vs with
  | nil => exact absurd rfl hvs
  | cons v rest ih =>
    have hv : (v : Row).count ',' = 0 :=
      List.count_eq_zero.mpr (hc v (List.mem_cons_self v rest))
    cases rest with
    | nil => simpa [commaJoin] using hv
    | cons w rs =>
      have ih' := ih (by simp) (fun u hu => hc u (List.mem_cons_of_mem v hu))
      show (v ++ ',' :: commaJoin (w :: rs)).count ',' = (v :: w :: rs).length - 1
      rw [List.count_append, hv, List.count_cons_self, ih']
      simp

/-- The comma-join of nonempty comma-free values does not start with a
comma. -/
lemma commaJoin_head (vs : List Row) (hvs : vs ≠ []) (h0 : [] ∉ vs)
    (hc : ∀ v ∈ vs, ',' ∉ v) :
    (commaJoin vs).head? ≠ some ',' := by
  cases vs with
  | nil => exact absurd rfl hvs
  | cons v rest =>
    have hv : v ≠ [] := fun hnil => h0 (hnil ▸ List.mem_cons_self v rest)
    cases v with
    | nil => exact absurd rfl hv
    | cons c v' =>
      have hcn : c ≠ ',' := fun hEq =>
        hc (c :: v') (List.mem_cons_self _ _) (hEq ▸ List.mem_cons_self c v')
      cases rest with
      | nil =>
        show (c :: v').head? ≠ some ','
        simpa using hcn
      | cons w rs =>
        show ((c :: v') ++ ',' :: commaJoin (w :: rs)).head? ≠ some ','
        simpa using hcn

/-- The comma-join of nonempty comma-free values does not end with a
comma. -/
lemma commaJoin_getLast (vs : List Row) (hvs : vs ≠ []) (h0 : [] ∉ vs)
    (hc : ∀ v ∈ vs, ',' ∉ v) :
    (commaJoin vs).getLast? ≠ some ',' := by
  induction vs with
  | nil => exact absurd rfl hvs
  | cons v rest ih =>
    cases rest with
    | nil =>
      show v.getLast? ≠ some ','
      intro hLast
      obtain ⟨hne, hEq⟩ := List.mem_getLast?_eq_getLast hLast
      exact hc v (List.mem_cons_self v []) (hEq ▸ List.getLast_mem hne)
    | cons w rs =>
      have ih' := ih (by simp) (fun hu => h0 (List.mem_cons_of_mem v hu))
        (fun u hu => hc u (List.mem_cons_of_mem v hu))
      show (v ++ ',' :: commaJoin (w :: rs)).getLast? ≠ some ','
      rw [List.getLast?_append_cons]
      obtain ⟨x, cj', hcj⟩ : ∃ x cj', commaJoin (w :: rs) = x :: cj' := by
        rcases hq : commaJoin (w :: rs) with _ | ⟨x, cj'⟩
        · exact absurd hq (commaJoin_ne_nil (w :: rs) (by simp)
            (fun hu => h0 (List.mem_cons_of_mem v hu)))
        · exact ⟨x, cj', rfl⟩
      rw [hcj, List.getLast?_cons_cons, ← hcj]
      exact ih'

/-- `format_instance` is the comma-join of the computed values as soon
as there is at least one attribute: the loop leaves one trailing comma
and the final `take` removes exactly it. -/
lemma format_instance_eq_commaJoin (row : Row) (attrs : List ArffField)
    (hne : attrs ≠ []) :
    format_instance row attrs = commaJoin (attrs.map (fun a => a.get_attr row)) := by
  unfold format_instance
  rw [foldl_format_loop, List.nil_append,
    commaJoinAll_eq_commaJoin _ (by simpa using hne)]
  dsimp only
  rw [List.length_append, List.length_singleton, Nat.add_sub_cancel]
  exact List.take_left _ _

/-- C6 (amended) — for a nonempty attribute list and a row whose
computed field values are nonempty and contain no separator, the output
of `format_instance` is the values joined by single commas, holding
exactly `len(attributes) - 1` commas and neither starting nor ending
with one. -/
theorem format_instance_separators (row : Row) (attrs : List ArffField)
    (hne : attrs ≠ [])
    (h0 : [] ∉ attrs.map (fun a => a.get_attr row))
    (hc : ∀ v ∈ attrs.map (fun a => a.get_attr row), ',' ∉ v) :
    format_instance row attrs = commaJoin (attrs.map (fun a => a.get_attr row)) ∧
    (format_instance row attrs).count ',' = attrs.length - 1 ∧
    (format_instance row attrs).head? ≠ some ',' ∧
    (format_instance row attrs).getLast? ≠ some ',' := by
  have hvs : attrs.map (fun a => a.get_attr row) ≠ [] := by simpa using hne
  have hmain := format_instance_eq_commaJoin row attrs hne
  refine ⟨hmain, ?_, ?_, ?_⟩
  · rw [hmain, commaJoin_count _ hvs hc, List.length_map]
  · rw [hmain]
    exact commaJoin_head _ hvs h0 hc
  · rw [hmain]
    exact commaJoin_getLast _ hvs h0 hc

/-- A one-character field at 1-based position 1. -/
def firstCharAttr : SeerAttribute :=
  SeerAttribute.make 1 1 "first".data "string".data

/-- A one-character field at 1-based position 2. -/
def secondCharAttr : SeerAttribute :=
  SeerAttribute.make 2 1 "second".data "string".data

/-- Witness for the amended C6: on the row `"ab"` with the two
one-character fields the output is `"a,b"`, with one comma and
non-comma edges. -/
theorem format_instance_separators_witness :
    format_instance shortDemoRow [firstCharAttr.toField, secondCharAttr.toField] =
      commaJoin ([firstCharAttr.toField, secondCharAttr.toField].map
        (fun a => a.get_attr shortDemoRow)) ∧
    (format_instance shortDemoRow
      [firstCharAttr.toField, secondCharAttr.toField]).count ',' = 1 ∧
    (format_instance shortDemoRow
      [firstCharAttr.toField, secondCharAttr.toField]).head? ≠ some ',' ∧
    (format_instance shortDemoRow
      [firstCharAttr.toField, secondCharAttr.toField]).getLast? ≠ some ',' :=
  format_instance_separators shortDemoRow
    [firstCharAttr.toField, secondCharAttr.toField]
    (List.cons_ne_nil _ _) (by decide) (by decide)

/-- C6 counterexample — on a row too short for either field, both
computed values are the empty string (which contains no separator), yet
the `format_instance` output is the single character `','`: it has
exactly `len(attributes) - 1 = 1` separator but both a leading and a
trailing separator, refuting the claim as stated. -/
theorem format_instance_edge_separator_cex :
    (∀ v ∈ [shortDemoAttr.toField, shortDemoAttr.toField].map
        (fun a => a.get_attr shortDemoRow), ',' ∉ v) ∧
    format_instance shortDemoRow [shortDemoAttr.toField, shortDemoAttr.toField] =
      [','] ∧
    (format_instance shortDemoRow
      [shortDemoAttr.toField, shortDemoAttr.toField]).head? = some ',' ∧
    (format_instance shortDemoRow
      [shortDemoAttr.toField, shortDemoAttr.toField]).getLast? = some ',' := by
  decide

/-- `get_relation` (source lines 424-425). -/
def get_relation : Row := "@relation breast".data

/-- The selection test of the driver loop (source line 460):
`filters == None or filters(line)`. -/
def acceptRow (filters : Option (Row → Bool)) (line : Row) : Bool :=
  match filters with
  | none => true
  | some f => f line

/-- The row loop of `to_arff` (source lines 454-463): one pass over the
input lines, carrying the written data lines and the
`totalRecords`/`selectedRecords` counters. -/
def to_arff_loop (keys : List ArffField) (filters : Option (Row → Bool))
    (lines : List Row) : List Row × Nat × Nat :=
  lines.foldl
    (fun acc line =>
      if acceptRow filters line then
        (acc.1 ++ [format_instance line keys], acc.2.1 + 1, acc.2.2 + 1)
      else
        (acc.1, acc.2.1 + 1, acc.2.2))
    ([], 0, 0)

/-- `to_arff` (source lines 438-467): the written output lines — the
relation line, one attribute declaration per key, a blank line, the
`@data` marker, then the data lines produced by the loop — together
with the two counters reported after the scan. -/
def to_arff (keys : List ArffField) (filters : Option (Row → Bool))
    (lines : List Row) : List Row × Nat × Nat :=
  (get_relation :: (keys.map (fun k => k.attr.get_meta_string) ++ [([] : Row), "@data".data])
      ++ (to_arff_loop keys filters lines).1,
   (to_arff_loop keys filters lines).2.1,
   (to_arff_loop keys filters lines).2.2)

/-- The driver loop from an arbitrary intermediate state. -/
lemma to_arff_loop_general (keys : List ArffField) (filters : Option (Row → Bool)) :
    ∀ (lines : List Row) (out : List Row) (t s : Nat),
      lines.foldl
        (fun acc line =>
          if acceptRow filters line then
            (acc.1 ++ [format_instance line keys], acc.2.1 + 1, acc.2.2 + 1)
          else
            (acc.1, acc.2.1 + 1, acc.2.2))
        (out, t, s) =
      (out ++ (lines.filter (acceptRow filters)).map (fun l => format_instance l keys),
       t + lines.length,
       s + (lines.filter (acceptRow filters)).length) := by
  intro lines
  induction lines with
  | nil => intro out t s; simp
  | cons l rest ih =>
    intro out t s
    rw [List.foldl_cons]
    cases h : acceptRow filters l with
    | true =>
      rw [if_pos rfl, ih]
      simp [List.filter_cons, h, List.append_assoc]
      omega
    | false =>
      rw [if_neg (by decide), ih]
      simp [List.filter_cons, h]
      omega

/-- C5 — the driver counts every input row once in `totalRecords`,
writes one formatted data line and one `selectedRecords` increment for
exactly the rows the predicate accepts, preserves input order on the
selected rows, and with no filter selects every row. -/
theorem to_arff_counters_and_order (keys : List ArffField)
    (filters : Option (Row → Bool)) (lines : List Row) :
    to_arff keys filters lines =
      (get_relation ::
        (keys.map (fun k => k.attr.get_meta_string) ++ [([] : Row), "@data".data]) ++
        (lines.filter (acceptRow filters)).map (fun l => format_instance l keys),
       lines.length,
       (lines.filter (acceptRow filters)).length) ∧
    lines.filter (acceptRow none) = lines := by
  constructor
  · unfold to_arff to_arff_loop
    rw [to_arff_loop_general]
    simp
  · show lines.filter (fun _ => true) = lines
    exact List.filter_true lines

end Seer2Arff
